import Mathlib

/-!
Shallow embedding of `src/models/resnet18.py` (ResNet-18 feature extractor
for a few-shot learning pipeline) and proofs about its episodic feature
aggregation (`get_final_features`), its embedding operation (`embed`), its
constructor (`resnet18`, `ResNet.__init__`) and its state handling
(`get_state_dict`, checkpoint loading).

Numeric values are modelled as exact rationals; the final L2 normalization,
which divides by a (generally irrational) Euclidean norm, is modelled over
the reals.  Python errors (AttributeError, KeyError, shape mismatches) are
modelled with `Except`.
-/

instance {ε α : Type} [DecidableEq ε] [DecidableEq α] :
    DecidableEq (Except ε α) := fun a b =>
  match a, b with
  | .ok x, .ok y =>
      if h : x = y then isTrue (by rw [h]) else isFalse (by simp [h])
  | .error e, .error f =>
      if h : e = f then isTrue (by rw [h]) else isFalse (by simp [h])
  | .ok _, .error _ => isFalse (fun h => by cases h)
  | .error _, .ok _ => isFalse (fun h => by cases h)

/-- Python-level errors that the modelled code can raise. -/
inductive Err where
  | attributeError
  | keyError
  | shapeMismatch
  | valueError
deriving DecidableEq, Repr

/-- A feature vector (one row of a 2-D tensor), with exact rational entries. -/
abbrev Vec := List ℚ

/-- A 2-D tensor, as its list of rows. -/
abbrev Mat := List Vec

/-- Elementwise sum of two vectors (tensor `+` on equal shapes). -/
def vecAdd (u v : Vec) : Vec := List.zipWith (· + ·) u v

/-- Scalar multiple of a vector. -/
def vecScale (c : ℚ) (v : Vec) : Vec := v.map (fun x => c * x)

/-- Sum of the rows `r :: rs` (tensor `.sum(dim=0)` of a nonempty stack). -/
def sumVecs (r : Vec) (rs : Mat) : Vec := rs.foldl vecAdd r

/-- Modelled from the spec: the per-class mean inside `compute_prototypes`
(imported from `models/losses.py`, which is not under `src/`): "one
prototype vector per class, computed as the mean of all support embeddings
sharing that class label", where "the case of zero support examples for a
class" is "an error (undefined mean)". -/
def classMean (rows : Mat) : Except Err Vec :=
  match rows with
  | [] => .error .valueError
  | r :: rs => .ok (vecScale (1 / ((rs.length : ℚ) + 1)) (sumVecs r rs))

/-- The support rows whose label equals `c` (boolean-mask selection
`embeddings[labels == c]`). -/
def selectClass (rows : Mat) (labels : List ℤ) (c : ℤ) : Mat :=
  ((labels.zip rows).filter (fun p => p.1 = c)).map Prod.snd

/-- Per-class means for the class indices in `cs`, failing as soon as one
class has no support example. -/
def protosAux (rows : Mat) (labels : List ℤ) : List ℕ → Except Err Mat
  | [] => .ok []
  | c :: cs =>
      match classMean (selectClass rows labels (c : ℤ)) with
      | .error e => .error e
      | .ok p =>
          match protosAux rows labels cs with
          | .error e => .error e
          | .ok ps => .ok (p :: ps)

/-- Modelled from the spec: `compute_prototypes(support_features,
support_labels, num_classes)` from `models/losses.py` (not under `src/`):
one mean vector per class index in `[0, num_classes)`. -/
def computePrototypes (rows : Mat) (labels : List ℤ) (numClasses : ℕ) :
    Except Err Mat :=
  protosAux rows labels (List.range numClasses)

/-- Matrix transpose (`tensor.T`): the source matrix is a list of rows, the
result has one row per column of the input.  The column count is read off
the first row, matching the rectangular tensors the code transposes. -/
def matT (w : Mat) : Mat :=
  (List.range (w.headD []).length).map (fun j => w.map (fun r => r.getD j 0))

/-- All rows share one length (the shape check `torch.vstack` performs:
every stacked tensor must agree on every dimension but the first). -/
def dimsConsistent (rows : Mat) : Bool :=
  match rows with
  | [] => true
  | r :: rs => rs.all (fun s => s.length = r.length)

/-- `torch.vstack`: concatenate blocks of rows, raising a shape-mismatch
error unless all rows have one common width. -/
def vstack (blocks : List Mat) : Except Err Mat :=
  let rows := blocks.flatten
  if dimsConsistent rows then .ok rows else .error .shapeMismatch

/-- The classifier head attached by `ResNet.__init__`.
`linear` is `nn.Linear(self.outplanes, num_classes)`: its `weight` has one
row per class (shape `num_classes × 512`) and a `bias`, per the tensor
library's documented layout.  `cosine` is modelled from the spec:
`CosineClassifier` from `models/model_utils.py` (not under `src/`) holds
"learned per-class reference vectors" as the columns of its `weight`
(shape `512 × num_classes`), which is why the aggregation step transposes
it "to one row per class". -/
inductive Classifier where
  | linear (weight : Mat) (bias : Vec)
  | cosine (weight : Mat)
deriving DecidableEq, Repr

/-- The `weight` attribute of either classifier head. -/
def Classifier.weight : Classifier → Mat
  | .linear w _ => w
  | .cosine w => w

/-- Shape invariants the constructor establishes for a head over
`512`-dimensional embeddings and `numClasses` classes. -/
def Classifier.wf (numClasses : ℕ) : Classifier → Prop
  | .linear w _ => w.length = numClasses ∧ ∀ r ∈ w, r.length = 512
  | .cosine w => w.length = 512 ∧ ∀ r ∈ w, r.length = numClasses

instance (numClasses : ℕ) (c : Classifier) : Decidable (c.wf numClasses) := by
  cases c <;> simp [Classifier.wf] <;> infer_instance

/-- An episode: parallel support and query image/label batches. -/
structure Episode (Img : Type) where
  supportImages : List Img
  supportLabels : List ℤ
  queryImages : List Img
  queryLabels : List ℤ

/-- The state of a constructed `ResNet` that the modelled operations read:
the class count, the optionally-attached classifier head (`none` models the
attribute `cls_fn` never having been assigned), the dropout probability,
and the backbone as the per-image embedding it computes.  The backbone
itself (conv stem, residual stages, global average pool) is the external
capability the spec names: "transform a batch of images into a batch of
embedding vectors", one vector per image. -/
structure ResNetM (Img : Type) where
  numClasses : ℕ
  clsFn : Option Classifier
  dropoutP : ℚ
  embedOne : Img → Vec

/-- `ResNet.embed` on a batch: one embedding row per input image. -/
def ResNetM.embedBatch {Img : Type} (m : ResNetM Img) (imgs : List Img) : Mat :=
  imgs.map m.embedOne

/-- The classifier-creation branch of `ResNet.__init__`: `'linear'` attaches
`nn.Linear`, `'cosine'` attaches `CosineClassifier`, and any other kind
leaves the `cls_fn` attribute unassigned (`none`). -/
def mkClsFn (classifier : String) (linW : Mat) (linB : Vec) (cosW : Mat) :
    Option Classifier :=
  if classifier = "linear" then some (.linear linW linB)
  else if classifier = "cosine" then some (.cosine cosW)
  else none

/-- `ResNet.__init__`: record the class count and dropout probability and
attach the classifier selected by the `classifier` string. -/
def mkResNet {Img : Type} (classifier : String) (numClasses : ℕ)
    (dropout : ℚ) (linW : Mat) (linB : Vec) (cosW : Mat)
    (embedOne : Img → Vec) : ResNetM Img :=
  { numClasses := numClasses
    clsFn := mkClsFn classifier linW linB cosW
    dropoutP := dropout
    embedOne := embedOne }

/-- Support-label band: `np.zeros_like(support_labels) + support_labels`. -/
def bandSupport (l : List ℤ) : List ℤ := l.map (fun x => 0 + x)

/-- Query-label band:
`np.ones_like(query_labels) * 2 * num_classes + query_labels`. -/
def bandQuery (numClasses : ℕ) (l : List ℤ) : List ℤ :=
  l.map (fun x => 1 * (2 * (numClasses : ℤ)) + x)

/-- Classifier-weight band: `3 * num_classes + np.arange(num_classes)`. -/
def bandCls (numClasses : ℕ) : List ℤ :=
  (List.range numClasses).map (fun i : ℕ => 3 * (numClasses : ℤ) + (i : ℤ))

/-- Prototype band: `4 * num_classes + np.arange(num_classes)`. -/
def bandProto (numClasses : ℕ) : List ℤ :=
  (List.range numClasses).map (fun i : ℕ => 4 * (numClasses : ℤ) + (i : ℤ))

/-- `ResNet.get_final_features` up to (but not including) the final L2
normalization: embed the support and query batches, assemble the banded
label vector, read the classifier weights (`self.cls_fn != None` raises an
AttributeError when `cls_fn` was never assigned), compute the class
prototypes from the support features, and vertically stack the four feature
blocks. -/
def getFinalFeaturesRaw {Img : Type} (m : ResNetM Img) (ep : Episode Img) :
    Except Err (Mat × List ℤ) :=
  let supportFeatures := m.embedBatch ep.supportImages
  let queryFeatures := m.embedBatch ep.queryImages
  match m.clsFn with
  | none => .error .attributeError
  | some cls =>
      let labels := bandSupport ep.supportLabels
        ++ bandQuery m.numClasses ep.queryLabels
        ++ bandCls m.numClasses
        ++ bandProto m.numClasses
      match computePrototypes supportFeatures ep.supportLabels
          m.numClasses with
      | .error e => .error e
      | .ok protos =>
          match vstack [supportFeatures, queryFeatures,
              matT cls.weight, protos] with
          | .error e => .error e
          | .ok features => .ok (features, labels)

/-- The epsilon of `torch.nn.functional.normalize(..., eps=1e-12)`. -/
def epsQ : ℚ := 1 / 10 ^ 12

/-- Euclidean norm of a rational vector, as a real number. -/
noncomputable def l2norm (v : Vec) : ℝ :=
  Real.sqrt ((v.map (fun x : ℚ => ((x : ℝ)) ^ 2)).sum)

/-- The stabilized denominator of `normalize`: `max(‖v‖₂, eps)`. -/
noncomputable def l2den (v : Vec) : ℝ := max (l2norm v) ((epsQ : ℝ))

/-- `torch.nn.functional.normalize(v, p=2, dim=-1, eps=1e-12)` on one row. -/
noncomputable def normalizeRow (v : Vec) : List ℝ :=
  v.map (fun x : ℚ => (x : ℝ) / l2den v)

/-- Euclidean norm of a real vector. -/
noncomputable def l2normR (u : List ℝ) : ℝ :=
  Real.sqrt ((u.map (fun x => x ^ 2)).sum)

/-- `ResNet.get_final_features`: the raw stacked features with every row L2
normalized, paired with the banded label vector. -/
noncomputable def getFinalFeatures {Img : Type} (m : ResNetM Img)
    (ep : Episode Img) : Except Err (List (List ℝ) × List ℤ) :=
  (getFinalFeaturesRaw m ep).map (fun fl => (fl.1.map normalizeRow, fl.2))

/-- Dot product of two rational vectors. -/
def dotQ (u v : Vec) : ℚ := (List.zipWith (· * ·) u v).sum

/-- Matrix-vector product: one dot product per weight row. -/
def matVec (w : Mat) (v : Vec) : Vec := w.map (fun r => dotQ r v)

/-- `nn.Dropout(p)` in training mode: each kept coordinate is scaled by
`1 / (1 - p)`, each dropped coordinate becomes `0`; the Bernoulli draw is
the explicit `mask` argument. -/
def applyDropout (p : ℚ) (mask : List Bool) (v : Vec) : Vec :=
  List.zipWith (fun keep x => if keep then x / (1 - p) else 0) mask v

/-- Dot product of two real vectors. -/
noncomputable def dotR (u v : List ℝ) : ℝ := (List.zipWith (· * ·) u v).sum

/-- The class scores of either classifier head.  `linear` is
`nn.Linear`: `W x + b`.  `cosine` is modelled from the spec: a
"cosine-similarity-based transform against learned per-class reference
vectors" — the cosine of the input against each class's reference column. -/
noncomputable def Classifier.scores : Classifier → Vec → List ℝ
  | .linear w b, v => (vecAdd (matVec w v) b).map (fun x : ℚ => (x : ℝ))
  | .cosine w, v =>
      (matT w).map (fun col => dotR (normalizeRow v) (normalizeRow col))

/-- `ResNet.forward`: embed, apply dropout, then classify with `cls_fn`
(raising an AttributeError when `cls_fn` was never assigned). -/
noncomputable def ResNetM.forward {Img : Type} (m : ResNetM Img)
    (mask : List Bool) (img : Img) : Except Err (List ℝ) :=
  match m.clsFn with
  | none => .error .attributeError
  | some cls =>
      .ok (cls.scores (applyDropout m.dropoutP mask (m.embedOne img)))

/-- `tensor.squeeze()` with no arguments: remove every dimension of
size `1` from the shape. -/
def squeezeShape (s : List ℕ) : List ℕ := s.filter (fun d => d ≠ 1)

/-- The shape of `self.avgpool(x)` at the end of `embed` for a batch of `n`
images: the batch dimension is carried through every layer, `layer4`
produces `self.outplanes = 512` channels, and `nn.AdaptiveAvgPool2d((1, 1))`
pools the spatial extent down to `1 × 1`.  (The convolutional stack itself
is the external backbone; only its declared output shape is modelled.) -/
def backboneOutShape (n : ℕ) : List ℕ := [n, 512, 1, 1]

/-- The shape `ResNet.embed` returns: the pooled shape after the trailing
`return x.squeeze()`. -/
def embedOutShape (n : ℕ) : List ℕ := squeezeShape (backboneOutShape n)

/-- A parameter tensor, flattened. -/
abbrev Tensor := List ℚ

/-- The construction-time configuration that determines which parameters a
`ResNet` registers. -/
structure Config where
  classifier : String
  numClasses : ℕ
deriving DecidableEq, Repr

/-- The parameter names the classifier branch of `ResNet.__init__` adds:
`nn.Linear` registers a weight and a bias, `CosineClassifier` registers its
weight, an unrecognized kind registers nothing. -/
def clsParamNames (classifier : String) : List String :=
  if classifier = "linear" then ["cls_fn.weight", "cls_fn.bias"]
  else if classifier = "cosine" then ["cls_fn.weight"]
  else []

/-- The ordered parameter names of a constructed model: the backbone's
registered names followed by the classifier's.  The list of backbone names
is a parameter: the state-handling properties hold for any fixed
registration order, which is determined by the configuration alone. -/
def paramNames (backbone : List String) (cfg : Config) : List String :=
  backbone ++ clsParamNames cfg.classifier

/-- A model viewed through its parameter state: its configuration plus the
name-keyed parameter entries in registration order. -/
structure PModel where
  cfg : Config
  params : List (String × Tensor)
deriving DecidableEq, Repr

/-- `ResNet.get_state_dict`: "Outputs all the state elements" — the
name-to-tensor mapping of every parameter. -/
def PModel.getStateDict (m : PModel) : List (String × Tensor) := m.params

/-- The key list of a state dict. -/
def keysOf (ps : List (String × Tensor)) : List String := ps.map Prod.fst

/-- Dictionary lookup by parameter name. -/
def lookupSD (sd : List (String × Tensor)) (k : String) : Option Tensor :=
  (sd.find? (fun p => p.1 = k)).map Prod.snd

/-- `load_state_dict`: in strict mode, fail when the model's keys and the
dict's keys do not coincide; otherwise overwrite every parameter whose name
the dict provides and keep the rest. -/
def loadStateDict (m : PModel) (sd : List (String × Tensor))
    (strictMode : Bool) : Except Err PModel :=
  let missing := (keysOf m.params).filter (fun k => !((keysOf sd).contains k))
  let unexpected :=
    (keysOf sd).filter (fun k => !((keysOf m.params).contains k))
  if strictMode = true ∧ (missing ≠ [] ∨ unexpected ≠ []) then
    .error .valueError
  else
    .ok { m with
          params := m.params.map (fun p => (p.1, (lookupSD sd p.1).getD p.2)) }

/-- A freshly constructed model of configuration `cfg`: its parameter list
runs over `paramNames` in registration order, with values drawn from the
weight initialization `init`. -/
def mkFresh (backbone : List String) (cfg : Config)
    (init : String → Tensor) : PModel :=
  { cfg := cfg, params := (paramNames backbone cfg).map (fun n => (n, init n)) }

/-- A Python dictionary key: the state dict is keyed by strings, but the
`resnet18` constructor subscripts it with an integer. -/
inductive PyKey where
  | int (n : ℤ)
  | str (s : String)
deriving DecidableEq, Repr

/-- The state dict as the Python dictionary `model.get_state_dict()`
actually is: keyed by the (string) parameter names. -/
def PModel.stateDictK (m : PModel) : List (PyKey × Tensor) :=
  m.params.map (fun p => (PyKey.str p.1, p.2))

/-- Python dictionary subscription `d[k]`: the value at the first matching
key, `None` standing for the KeyError case. -/
def dictGet (d : List (PyKey × Tensor)) (k : PyKey) : Option Tensor :=
  (d.find? (fun p => p.1 = k)).map Prod.snd

/-- Modelled from the spec: `model.load_parameters(ckpt, strict=False)` is
called on the model but defined outside `src/`; per the spec the load is
"non-strict — mismatched parameter names are tolerated, not fatal". -/
def loadParametersNonStrict (m : PModel) (sd : List (String × Tensor)) :
    PModel :=
  { m with params := m.params.map (fun p => (p.1, (lookupSD sd p.1).getD p.2)) }

/-- The `resnet18` constructor over the parameter-state view of the freshly
built model: when `pretrained` is set, it first evaluates
`model.get_state_dict()[0].device` — subscripting the string-keyed state
dict with the integer key `0` — and only then would it load the checkpoint
non-strictly. -/
def resnet18Ctor (pretrained : Bool) (ckpt : List (String × Tensor))
    (m : PModel) : Except Err PModel :=
  if pretrained then
    match dictGet m.stateDictK (PyKey.int 0) with
    | none => .error .keyError
    | some _ => .ok (loadParametersNonStrict m ckpt)
  else .ok m

/-- The model used by small concrete instantiations: one class, a cosine
head with a single reference vector, a backbone that embeds every image to
`[1]`. -/
def cxM1 : ResNetM ℕ := ⟨1, some (.cosine [[2]]), 0, fun _ => [1]⟩

/-- A one-shot, one-query episode over one class. -/
def cxEp1 : Episode ℕ := ⟨[0], [0], [1], [0]⟩

/-- A model whose classifier kind is not one of the recognized choices. -/
def cxM3 : ResNetM ℕ := mkResNet "relu" 5 0 [] [] [] (fun _ => [1, 2])

/-- Two-class models that differ only in their dropout probability. -/
def cxM10a : ResNetM ℕ := ⟨2, some (.cosine [[1], [1]]), 0, fun _ => [1, 1]⟩

/-- See `cxM10a`; the dropout probability is `1/2` instead of `0`. -/
def cxM10b : ResNetM ℕ :=
  ⟨2, some (.cosine [[1], [1]]), 1 / 2, fun _ => [1, 1]⟩

/-- A 512-dimensional all-ones embedding. -/
def cxV512 : Vec := List.replicate 512 1

/-- A well-formed cosine weight for one class over 512 dimensions. -/
def cxW2w : Mat := List.replicate 512 [2]

/-- A model with the true embedding width (512) and a cosine head. -/
def cxM2 : ResNetM ℕ := ⟨1, some (.cosine cxW2w), 0, fun _ => cxV512⟩

/-- The raw (pre-normalization) feature matrix `cxM2` produces on `cxEp1`:
one support row, one query row, one transposed-weight row, one prototype
row, each 512 wide. -/
def cxF2raw : Mat := [cxV512, cxV512, List.replicate 512 2, cxV512]

/-- A well-formed `nn.Linear` weight for one class: one 512-wide row. -/
def cxW4w : Mat := [List.replicate 512 3]

/-- A model with a linear head on one class and 512-wide embeddings. -/
def cxM4 : ResNetM ℕ := ⟨1, some (.linear cxW4w [4]), 0, fun _ => cxV512⟩

/-- A model whose backbone embeds every image to the zero vector. -/
def cxM6 : ResNetM ℕ := ⟨1, some (.cosine [[1]]), 0, fun _ => [0]⟩

/-- Backbone parameter names used by the round-trip instance. -/
def cxBackbone : List String := ["conv1.weight", "bn1.weight", "bn1.bias"]

/-- Configuration used by the round-trip instance. -/
def cxCfg : Config := ⟨"cosine", 5⟩

/-- The trained parameter values of the round-trip instance. -/
def cxTrained : String → Tensor := fun _ => [1, 2]

/-- The fresh-initialization values of the round-trip instance. -/
def cxInit : String → Tensor := fun _ => [0]

/-- A trained model, parameters in canonical registration order. -/
def cxM9 : PModel :=
  ⟨cxCfg, (paramNames cxBackbone cxCfg).map (fun n => (n, cxTrained n))⟩

theorem gff_ok_iff {Img : Type} (m : ResNetM Img) (ep : Episode Img)
    (f : List (List ℝ)) (l : List ℤ) :
    getFinalFeatures m ep = .ok (f, l) ↔
      ∃ f0, getFinalFeaturesRaw m ep = .ok (f0, l) ∧
        f = f0.map normalizeRow := by
  unfold getFinalFeatures
  cases h : getFinalFeaturesRaw m ep with
  | error e => simp [Except.map]
  | ok fl =>
      obtain ⟨f0, l0⟩ := fl
      simp only [Except.map, Except.ok.injEq, Prod.mk.injEq]
      constructor
      · rintro ⟨h1, h2⟩
        exact ⟨f0, ⟨rfl, h2⟩, h1.symm⟩
      · rintro ⟨f1, ⟨h1, h2⟩, h3⟩
        exact ⟨by rw [h3, h1], h2⟩

theorem raw_ok_elim {Img : Type} {m : ResNetM Img} {ep : Episode Img}
    {f0 : Mat} {l : List ℤ}
    (h : getFinalFeaturesRaw m ep = .ok (f0, l)) :
    ∃ cls protos,
      m.clsFn = some cls ∧
      computePrototypes (m.embedBatch ep.supportImages) ep.supportLabels
        m.numClasses = .ok protos ∧
      vstack [m.embedBatch ep.supportImages, m.embedBatch ep.queryImages,
        matT cls.weight, protos] = .ok f0 ∧
      l = bandSupport ep.supportLabels
        ++ bandQuery m.numClasses ep.queryLabels
        ++ bandCls m.numClasses ++ bandProto m.numClasses := by
  simp only [getFinalFeaturesRaw] at h
  split at h
  · exact absurd h (by simp)
  · rename_i cls hcls
    split at h
    · exact absurd h (by simp)
    · rename_i protos hprotos
      split at h
      · exact absurd h (by simp)
      · rename_i features hfeat
        obtain ⟨h1, h2⟩ := Prod.mk.injEq .. ▸ Except.ok.inj h
        exact ⟨cls, protos, hcls, hprotos, by rw [h1] at hfeat; exact hfeat,
          h2.symm⟩

theorem vstack_ok_elim {blocks : List Mat} {rows : Mat}
    (h : vstack blocks = .ok rows) :
    rows = blocks.flatten ∧ dimsConsistent blocks.flatten = true := by
  simp only [vstack] at h
  split at h
  · exact ⟨(Except.ok.inj h).symm, by assumption⟩
  · exact absurd h (by simp)

theorem dims_all_eq {rows : Mat} (h : dimsConsistent rows = true)
    {r s : Vec} (hr : r ∈ rows) (hs : s ∈ rows) : r.length = s.length := by
  cases rows with
  | nil => exact absurd hr (List.not_mem_nil r)
  | cons x xs =>
      simp only [dimsConsistent, List.all_eq_true, decide_eq_true_eq] at h
      have hx : ∀ t ∈ x :: xs, t.length = x.length := by
        intro t ht
        rcases List.mem_cons.mp ht with rfl | ht
        · rfl
        · exact h t ht
      rw [hx r hr, hx s hs]

theorem getD_map_q (f : ℚ → ℚ) (v : Vec) (j : ℕ) (h : j < v.length) :
    (v.map f).getD j 0 = f (v.getD j 0) := by
  rw [List.getD_eq_getElem?_getD, List.getD_eq_getElem?_getD,
    List.getElem?_map, List.getElem?_eq_getElem h]
  simp

theorem getD_vecAdd {u v : Vec} {j : ℕ} (hu : j < u.length)
    (hv : j < v.length) :
    (vecAdd u v).getD j 0 = u.getD j 0 + v.getD j 0 := by
  rw [vecAdd, List.getD_eq_getElem?_getD, List.getD_eq_getElem?_getD,
    List.getD_eq_getElem?_getD, List.getElem?_zipWith',
    List.getElem?_eq_getElem hu, List.getElem?_eq_getElem hv]
  simp

theorem sumVecs_getD {d : ℕ} : ∀ (rs : Mat) (r : Vec), r.length = d →
    (∀ s ∈ rs, s.length = d) →
    (sumVecs r rs).length = d ∧
      ∀ j, j < d → (sumVecs r rs).getD j 0 =
        r.getD j 0 + ((rs.map (fun s => s.getD j 0)).sum) := by
  intro rs
  induction rs with
  | nil => exact fun r hr _ => ⟨hr, fun j hj => by simp [sumVecs]⟩
  | cons s rs ih =>
      intro r hr hs
      have hsd : s.length = d := hs s (by simp)
      have hlen : (vecAdd r s).length = d := by
        simp [vecAdd, List.length_zipWith, hr, hsd]
      have h1 := ih (vecAdd r s) hlen (fun t ht => hs t (by simp [ht]))
      have hsum : sumVecs r (s :: rs) = sumVecs (vecAdd r s) rs := rfl
      refine ⟨by rw [hsum]; exact h1.1, ?_⟩
      intro j hj
      rw [hsum, h1.2 j hj, getD_vecAdd (hr ▸ hj) (hsd ▸ hj)]
      simp only [List.map_cons, List.sum_cons]
      ring

theorem classMean_ok_spec {sel : Mat} {d : ℕ} (hne : sel ≠ [])
    (hd : ∀ r ∈ sel, r.length = d) :
    ∃ v, classMean sel = .ok v ∧ v.length = d ∧
      ∀ j, j < d → v.getD j 0 =
        ((sel.map (fun r => r.getD j 0)).sum) / (sel.length : ℚ) := by
  obtain ⟨r, rs, rfl⟩ := List.exists_cons_of_ne_nil hne
  have hr : r.length = d := hd r (by simp)
  have hrs : ∀ s ∈ rs, s.length = d := fun s hs => hd s (by simp [hs])
  obtain ⟨hL, hG⟩ := sumVecs_getD rs r hr hrs
  refine ⟨_, rfl, ?_, ?_⟩
  · simp [vecScale, hL]
  · intro j hj
    rw [vecScale, getD_map_q _ _ j (by rw [hL]; exact hj), hG j hj]
    simp only [List.map_cons, List.sum_cons, List.length_cons]
    push_cast
    rw [one_div_mul_eq_div]

theorem mem_selectClass {rows : Mat} {labels : List ℤ} {c : ℤ} {r : Vec}
    (h : r ∈ selectClass rows labels c) : r ∈ rows := by
  simp only [selectClass, List.mem_map, List.mem_filter] at h
  obtain ⟨p, ⟨hp, _⟩, rfl⟩ := h
  exact (List.of_mem_zip hp).2

theorem selectClass_ne_nil {rows : Mat} {labels : List ℤ} {c : ℤ}
    (hlen : labels.length = rows.length) (hc : c ∈ labels) :
    selectClass rows labels c ≠ [] := by
  have hz : labels = (labels.zip rows).map Prod.fst :=
    (List.map_fst_zip labels rows (le_of_eq hlen)).symm
  rw [hz] at hc
  simp only [List.mem_map] at hc
  obtain ⟨p, hp, hp1⟩ := hc
  intro hnil
  have hmem : p.2 ∈ selectClass rows labels c :=
    List.mem_map.mpr ⟨p, List.mem_filter.mpr ⟨hp, by simp [hp1]⟩, rfl⟩
  rw [hnil] at hmem
  exact List.not_mem_nil p.2 hmem

theorem protosAux_ok_spec {rows : Mat} {labels : List ℤ} {d : ℕ}
    (hd : ∀ r ∈ rows, r.length = d) :
    ∀ (cs : List ℕ),
      (∀ c ∈ cs, selectClass rows labels (c : ℤ) ≠ []) →
      ∃ ps, protosAux rows labels cs = .ok ps ∧ ps.length = cs.length ∧
        ∀ k, k < cs.length → ∀ j, j < d →
          (ps.getD k []).getD j 0 =
            (((selectClass rows labels ((cs.getD k 0 : ℕ) : ℤ)).map
                (fun r => r.getD j 0)).sum)
              / ((selectClass rows labels ((cs.getD k 0 : ℕ) : ℤ)).length
                  : ℚ) := by
  intro cs
  induction cs with
  | nil =>
      exact fun _ => ⟨[], rfl, rfl, fun k hk => by simp at hk⟩
  | cons c cs ih =>
      intro hcov
      have hne : selectClass rows labels (c : ℤ) ≠ [] := hcov c (by simp)
      have hsel : ∀ r ∈ selectClass rows labels (c : ℤ), r.length = d :=
        fun r hr => hd r (mem_selectClass hr)
      obtain ⟨v, hv, hvl, hvg⟩ := classMean_ok_spec hne hsel
      obtain ⟨ps, hps, hpl, hpg⟩ := ih (fun c' hc' => hcov c' (by simp [hc']))
      refine ⟨v :: ps, by simp [protosAux, hv, hps], by simp [hpl], ?_⟩
      intro k hk j hj
      cases k with
      | zero => simpa using hvg j hj
      | succ k =>
          have hk' : k < cs.length := by simpa using hk
          simpa using hpg k hk' j hj

theorem protosAux_failure {rows : Mat} {labels : List ℤ} :
    ∀ (cs : List ℕ), (∃ c ∈ cs, selectClass rows labels (c : ℤ) = []) →
      protosAux rows labels cs = .error .valueError := by
  intro cs
  induction cs with
  | nil => rintro ⟨c, h, _⟩; exact absurd h (List.not_mem_nil c)
  | cons c cs ih =>
      rintro ⟨c', hc', hsel⟩
      rcases List.mem_cons.mp hc' with rfl | hc'
      · simp [protosAux, hsel, classMean]
      · cases hsel2 : selectClass rows labels (c : ℤ) with
        | nil => simp [protosAux, hsel2, classMean]
        | cons r rs =>
            have htail := ih ⟨c', hc', hsel⟩
            simp [protosAux, hsel2, classMean, htail]

/-- C1: whenever `get_final_features` returns, and the episode's support and
query labels all lie in `[0, num_classes)`, the returned label vector is the
banded encoding — support labels unchanged, query labels shifted by
`2*num_classes`, classifier-weight labels `3*num_classes + i`, prototype
labels `4*num_classes + i` — the four bands lie in the claimed disjoint
ranges, and the bands are pairwise disjoint. -/
theorem claim_C1_label_bands {Img : Type} (m : ResNetM Img)
    (ep : Episode Img) (f : List (List ℝ)) (l : List ℤ)
    (hok : getFinalFeatures m ep = .ok (f, l))
    (hs : ∀ x ∈ ep.supportLabels, 0 ≤ x ∧ x < (m.numClasses : ℤ))
    (hq : ∀ x ∈ ep.queryLabels, 0 ≤ x ∧ x < (m.numClasses : ℤ)) :
    l = ep.supportLabels
        ++ ep.queryLabels.map (fun x => 2 * (m.numClasses : ℤ) + x)
        ++ (List.range m.numClasses).map
            (fun i : ℕ => 3 * (m.numClasses : ℤ) + (i : ℤ))
        ++ (List.range m.numClasses).map
            (fun i : ℕ => 4 * (m.numClasses : ℤ) + (i : ℤ)) ∧
    (∀ x ∈ ep.queryLabels.map (fun x => 2 * (m.numClasses : ℤ) + x),
        2 * (m.numClasses : ℤ) ≤ x ∧ x < 3 * (m.numClasses : ℤ)) ∧
    (∀ x ∈ (List.range m.numClasses).map
        (fun i : ℕ => 3 * (m.numClasses : ℤ) + (i : ℤ)),
        3 * (m.numClasses : ℤ) ≤ x ∧ x < 4 * (m.numClasses : ℤ)) ∧
    (∀ x ∈ (List.range m.numClasses).map
        (fun i : ℕ => 4 * (m.numClasses : ℤ) + (i : ℤ)),
        4 * (m.numClasses : ℤ) ≤ x ∧ x < 5 * (m.numClasses : ℤ)) ∧
    (∀ x ∈ ep.supportLabels,
        x ∉ ep.queryLabels.map (fun x => 2 * (m.numClasses : ℤ) + x) ∧
        x ∉ (List.range m.numClasses).map
              (fun i : ℕ => 3 * (m.numClasses : ℤ) + (i : ℤ)) ∧
        x ∉ (List.range m.numClasses).map
              (fun i : ℕ => 4 * (m.numClasses : ℤ) + (i : ℤ))) ∧
    (∀ x ∈ ep.queryLabels.map (fun x => 2 * (m.numClasses : ℤ) + x),
        x ∉ (List.range m.numClasses).map
              (fun i : ℕ => 3 * (m.numClasses : ℤ) + (i : ℤ)) ∧
        x ∉ (List.range m.numClasses).map
              (fun i : ℕ => 4 * (m.numClasses : ℤ) + (i : ℤ))) ∧
    (∀ x ∈ (List.range m.numClasses).map
        (fun i : ℕ => 3 * (m.numClasses : ℤ) + (i : ℤ)),
        x ∉ (List.range m.numClasses).map
              (fun i : ℕ => 4 * (m.numClasses : ℤ) + (i : ℤ))) := by
  obtain ⟨f0, hraw, _⟩ := (gff_ok_iff m ep f l).mp hok
  obtain ⟨cls, protos, _, _, _, hl⟩ := raw_ok_elim hraw
  refine ⟨?_, ?_, ?_, ?_, ?_, ?_, ?_⟩
  · rw [hl]
    simp [bandSupport, bandQuery, bandCls, bandProto]
  · rintro x hx
    obtain ⟨y, hy, rfl⟩ := List.mem_map.mp hx
    have := hq y hy
    omega
  · rintro x hx
    obtain ⟨i, hi, rfl⟩ := List.mem_map.mp hx
    rw [List.mem_range] at hi
    omega
  · rintro x hx
    obtain ⟨i, hi, rfl⟩ := List.mem_map.mp hx
    rw [List.mem_range] at hi
    omega
  · intro x hx
    have hb := hs x hx
    refine ⟨?_, ?_, ?_⟩
    · intro hmem
      obtain ⟨y, hy, he⟩ := List.mem_map.mp hmem
      have := hq y hy
      omega
    · intro hmem
      obtain ⟨i, hi, he⟩ := List.mem_map.mp hmem
      rw [List.mem_range] at hi
      omega
    · intro hmem
      obtain ⟨i, hi, he⟩ := List.mem_map.mp hmem
      rw [List.mem_range] at hi
      omega
  · intro x hx
    obtain ⟨y, hy, rfl⟩ := List.mem_map.mp hx
    have hb := hq y hy
    constructor
    · intro hmem
      obtain ⟨i, hi, he⟩ := List.mem_map.mp hmem
      rw [List.mem_range] at hi
      omega
    · intro hmem
      obtain ⟨i, hi, he⟩ := List.mem_map.mp hmem
      rw [List.mem_range] at hi
      omega
  · intro x hx
    obtain ⟨i, hi, rfl⟩ := List.mem_map.mp hx
    rw [List.mem_range] at hi
    intro hmem
    obtain ⟨i', hi', he⟩ := List.mem_map.mp hmem
    rw [List.mem_range] at hi'
    omega

/-- C1, witness: the banded label vector of a concrete one-class episode. -/
theorem claim_C1_label_bands_witness :
    getFinalFeatures cxM1 cxEp1 =
      .ok ([[1], [1], [2], [1]].map normalizeRow, [0, 2, 3, 4]) ∧
    ([0, 2, 3, 4] : List ℤ) =
      cxEp1.supportLabels
        ++ cxEp1.queryLabels.map (fun x => 2 * (cxM1.numClasses : ℤ) + x)
        ++ (List.range cxM1.numClasses).map
            (fun i : ℕ => 3 * (cxM1.numClasses : ℤ) + (i : ℤ))
        ++ (List.range cxM1.numClasses).map
            (fun i : ℕ => 4 * (cxM1.numClasses : ℤ) + (i : ℤ)) := by
  have hraw : getFinalFeaturesRaw cxM1 cxEp1 =
      .ok ([[1], [1], [2], [1]], [0, 2, 3, 4]) := by
    simp [cxM1, cxEp1, getFinalFeaturesRaw, ResNetM.embedBatch,
      computePrototypes, protosAux, classMean, selectClass, sumVecs,
      vecScale, vstack, dimsConsistent, matT, bandSupport, bandQuery,
      bandCls, bandProto, Classifier.weight, List.range_succ]
  have hok : getFinalFeatures cxM1 cxEp1 =
      .ok ([[1], [1], [2], [1]].map normalizeRow, [0, 2, 3, 4]) := by
    simp [getFinalFeatures, hraw, Except.map]
  exact ⟨hok,
    (claim_C1_label_bands cxM1 cxEp1 _ _ hok (by decide) (by decide)).1⟩

/-- C5: over any support set whose rows all have width `d` and whose label
list is parallel to it, (i) if every class index in `[0, C)` occurs among
the support labels, the prototype computation succeeds with one row per
class, and coordinate `j` of the prototype for class `c` is the arithmetic
mean — sum divided by count — of coordinate `j` of exactly the support
embeddings labelled `c`; and (ii) if some class in range has no support
example, the computation fails (undefined mean), as the caller-obligation
reading of the claim states. -/
theorem claim_C5_prototype_mean (rows : Mat) (labels : List ℤ) (C d : ℕ)
    (hd : ∀ r ∈ rows, r.length = d)
    (hlen : labels.length = rows.length) :
    ((∀ c : ℕ, c < C → (c : ℤ) ∈ labels) →
      ∃ ps, computePrototypes rows labels C = .ok ps ∧ ps.length = C ∧
        ∀ c : ℕ, c < C → ∀ j : ℕ, j < d →
          (ps.getD c []).getD j 0 =
            (((selectClass rows labels (c : ℤ)).map
                (fun r => r.getD j 0)).sum)
              / ((selectClass rows labels (c : ℤ)).length : ℚ)) ∧
    ((∃ c : ℕ, c < C ∧ selectClass rows labels (c : ℤ) = []) →
      computePrototypes rows labels C = .error .valueError) := by
  constructor
  · intro hcov
    have hne : ∀ c ∈ List.range C, selectClass rows labels (c : ℤ) ≠ [] :=
      fun c hc =>
        selectClass_ne_nil hlen (hcov c (List.mem_range.mp hc))
    obtain ⟨ps, hps, hl, hg⟩ := protosAux_ok_spec hd (List.range C) hne
    refine ⟨ps, hps, by simpa using hl, ?_⟩
    intro c hc j hj
    have hrg : (List.range C).getD c 0 = c := by
      rw [List.getD_eq_getElem?_getD, List.getElem?_eq_getElem
        (by simpa using hc)]
      simp
    have := hg c (by simpa using hc) j hj
    rwa [hrg] at this
  · rintro ⟨c, hc, hsel⟩
    exact protosAux_failure (List.range C)
      ⟨c, List.mem_range.mpr hc, hsel⟩

/-- C5, witness: a two-class, three-shot support set with 2-dimensional
embeddings, full class coverage. -/
theorem claim_C5_prototype_mean_witness :
    ∃ ps, computePrototypes [[1, 2], [3, 4], [5, 6]] [0, 1, 0] 2 = .ok ps ∧
      ps.length = 2 ∧ ∀ c : ℕ, c < 2 → ∀ j : ℕ, j < 2 →
        (ps.getD c []).getD j 0 =
          (((selectClass [[1, 2], [3, 4], [5, 6]] [0, 1, 0] (c : ℤ)).map
              (fun r => r.getD j 0)).sum)
            / ((selectClass [[1, 2], [3, 4], [5, 6]] [0, 1, 0]
                (c : ℤ)).length : ℚ) :=
  (claim_C5_prototype_mean [[1, 2], [3, 4], [5, 6]] [0, 1, 0] 2 2
    (by decide) (by decide)).1 (by decide)

/-- C7 (amended): for every batch of `n ≥ 2` images, `embed` returns an
`n × 512` matrix; the amendment excludes `n = 1`, where the trailing
`x.squeeze()` also removes the batch dimension (see the counterexample). -/
theorem claim_C7_embed_shape (n : ℕ) (h : 2 ≤ n) :
    embedOutShape n = [n, 512] := by
  have h1 : n ≠ 1 := by omega
  simp [embedOutShape, backboneOutShape, squeezeShape, List.filter, h1]

/-- C7, counterexample to the claim as stated: for a single-image batch the
result of `embed` has shape `[512]` — a 1-D vector — not the `1 × 512`
matrix the claim asserts, because `squeeze()` drops the size-1 batch
dimension along with the two pooled spatial dimensions. -/
theorem claim_C7_counterexample :
    embedOutShape 1 = [512] ∧ embedOutShape 1 ≠ [1, 512] := by decide

/-- C7, witness: the amended statement instantiated at `n = 2`. -/
theorem claim_C7_embed_shape_witness :
    2 ≤ 2 ∧ embedOutShape 2 = [2, 512] :=
  ⟨by decide, claim_C7_embed_shape 2 (by decide)⟩

/-- C8: calling the `resnet18` constructor with the pretrained flag set
always fails with a KeyError, for every checkpoint and every model state:
`model.get_state_dict()[0]` subscripts the string-keyed state dict with the
integer `0` before any loading happens, so the non-strict load and the log
message are never reached. -/
theorem claim_C8_pretrained_keyerror (ckpt : List (String × Tensor))
    (m : PModel) : resnet18Ctor true ckpt m = .error .keyError := by
  have h : dictGet m.stateDictK (PyKey.int 0) = none := by
    rw [dictGet]
    rw [List.find?_eq_none.mpr]
    · rfl
    · intro p hp
      simp only [PModel.stateDictK, List.mem_map] at hp
      obtain ⟨q, _, rfl⟩ := hp
      simp
  simp [resnet18Ctor, h]

/-- C3: constructing with the unrecognized classifier kind `"relu"` leaves
`cls_fn` unassigned; `embed` still works (one embedding per image), but
`get_final_features` does not degrade gracefully: it raises an
AttributeError at the `self.cls_fn != None` test, because `__init__` never
assigned the attribute (not even to `None`). -/
theorem claim_C3_unrecognized_classifier :
    cxM3.clsFn = none ∧
    cxM3.embedBatch [3, 4] = [[1, 2], [1, 2]] ∧
    getFinalFeatures cxM3 cxEp1 = .error .attributeError := by
  have h : cxM3.clsFn = none := by decide
  refine ⟨h, by decide, ?_⟩
  simp [getFinalFeatures, getFinalFeaturesRaw, h, Except.map]

/-- C10: two models that agree on everything except the dropout probability
produce identical `embed` batches and identical `get_final_features`
results on every input: the dropout layer is read only by `forward`. -/
theorem claim_C10_dropout_invariance {Img : Type} (m₁ m₂ : ResNetM Img)
    (hC : m₁.numClasses = m₂.numClasses) (hcls : m₁.clsFn = m₂.clsFn)
    (hemb : m₁.embedOne = m₂.embedOne) :
    (∀ imgs, m₁.embedBatch imgs = m₂.embedBatch imgs) ∧
    ∀ ep, getFinalFeatures m₁ ep = getFinalFeatures m₂ ep := by
  obtain ⟨C₁, c₁, p₁, e₁⟩ := m₁
  obtain ⟨C₂, c₂, p₂, e₂⟩ := m₂
  simp only at hC hcls hemb
  subst hC hcls hemb
  exact ⟨fun _ => rfl, fun _ => rfl⟩

/-- C10, witness: the dropout-invariance applied to concrete models with
dropout `0` and `1/2`. -/
theorem claim_C10_dropout_invariance_witness :
    cxM10a.embedBatch [0, 1] = cxM10b.embedBatch [0, 1] ∧
    getFinalFeatures cxM10a cxEp1 = getFinalFeatures cxM10b cxEp1 :=
  ⟨(claim_C10_dropout_invariance cxM10a cxM10b rfl rfl rfl).1 [0, 1],
   (claim_C10_dropout_invariance cxM10a cxM10b rfl rfl rfl).2 cxEp1⟩

theorem find?_map_pair {names : List String} {f : String → Tensor}
    {n : String} (hn : n ∈ names) :
    (names.map (fun k => (k, f k))).find? (fun p => p.1 = n) =
      some (n, f n) := by
  induction names with
  | nil => exact absurd hn (List.not_mem_nil n)
  | cons a as ih =>
      rcases eq_or_ne a n with rfl | hne
      · rw [List.map_cons, List.find?_cons_of_pos _ (by simp)]
      · have hn' : n ∈ as := by
          rcases List.mem_cons.mp hn with h | h
          · exact absurd h.symm hne
          · exact h
        rw [List.map_cons, List.find?_cons_of_neg _ (by simp [hne])]
        exact ih hn'

theorem keysOf_map_pair (names : List String) (f : String → Tensor) :
    keysOf (names.map (fun k => (k, f k))) = names := by
  induction names with
  | nil => rfl
  | cons a as ih => simp only [keysOf, List.map_cons] at ih ⊢; rw [ih]

/-- C9: saving a model's parameter state with `get_state_dict` and loading
it in strict mode into a freshly constructed model of the same
configuration succeeds and reproduces the saved model exactly, so every
output computed from the reloaded model equals the corresponding output of
the original on the same input. -/
theorem claim_C9_state_roundtrip (backbone : List String) (cfg : Config)
    (trained init : String → Tensor) (m : PModel)
    (hcfg : m.cfg = cfg)
    (hparams : m.params = (paramNames backbone cfg).map
      (fun n => (n, trained n))) :
    loadStateDict (mkFresh backbone cfg init) m.getStateDict true = .ok m ∧
    ∀ (T U : Type) (g : PModel → T → U) (x : T) (m' : PModel),
      loadStateDict (mkFresh backbone cfg init) m.getStateDict true
        = .ok m' → g m' x = g m x := by
  have hkeys_m : keysOf m.getStateDict = paramNames backbone cfg := by
    rw [PModel.getStateDict, hparams]; exact keysOf_map_pair _ _
  have hkeys_fresh :
      keysOf (mkFresh backbone cfg init).params = paramNames backbone cfg :=
    keysOf_map_pair _ _
  have hmain :
      loadStateDict (mkFresh backbone cfg init) m.getStateDict true
        = .ok m := by
    simp only [loadStateDict]
    rw [if_neg]
    · obtain ⟨mcfg, mparams⟩ := m
      simp only at hcfg hparams
      subst hcfg
      subst hparams
      simp only [Except.ok.injEq, mkFresh, PModel.mk.injEq]
      refine ⟨trivial, ?_⟩
      rw [List.map_map]
      · apply List.map_congr_left
        intro n hn
        simp only [Function.comp, PModel.getStateDict, lookupSD,
          find?_map_pair hn, Option.map_some', Option.getD_some]
    · rintro ⟨-, h⟩
      rcases h with h | h
      · apply h
        rw [hkeys_fresh]
        apply List.filter_eq_nil_iff.mpr
        intro k hk
        rw [hkeys_m] at *
        simp [List.elem_iff, hk]
      · apply h
        rw [hkeys_m]
        apply List.filter_eq_nil_iff.mpr
        intro k hk
        rw [hkeys_fresh] at *
        simp [List.elem_iff, hk]
  refine ⟨hmain, ?_⟩
  intro T U g x m' hm'
  rw [hmain] at hm'
  rw [Except.ok.inj hm']

/-- C9, witness: the round trip on a concrete configuration and concrete
trained/initial parameter values. -/
theorem claim_C9_state_roundtrip_witness :
    loadStateDict (mkFresh cxBackbone cxCfg cxInit) cxM9.getStateDict true
      = .ok cxM9 :=
  (claim_C9_state_roundtrip cxBackbone cxCfg cxTrained cxInit cxM9
    rfl rfl).1

theorem sum_sq_cast_nonneg (v : Vec) :
    0 ≤ (v.map (fun x : ℚ => ((x : ℝ)) ^ 2)).sum := by
  apply List.sum_nonneg
  intro y hy
  obtain ⟨x, _, rfl⟩ := List.mem_map.mp hy
  positivity

theorem epsR_pos : (0 : ℝ) < ((epsQ : ℚ) : ℝ) := by norm_num [epsQ]

theorem l2den_pos (v : Vec) : 0 < l2den v :=
  lt_of_lt_of_le epsR_pos (le_max_right _ _)

theorem l2normR_normalizeRow (v : Vec) :
    l2normR (normalizeRow v) = l2norm v / l2den v := by
  have hd := l2den_pos v
  unfold l2normR normalizeRow l2norm
  rw [List.map_map]
  have hcong : (v.map ((fun x : ℝ => x ^ 2) ∘ fun x : ℚ => (x : ℝ) / l2den v))
      = v.map (fun x : ℚ => ((x : ℝ) ^ 2) * (1 / l2den v ^ 2)) := by
    apply List.map_congr_left
    intro x _
    simp only [Function.comp, div_pow]
    ring
  rw [hcong, List.sum_map_mul_right,
    Real.sqrt_mul (sum_sq_cast_nonneg v)]
  rw [show (1 : ℝ) / l2den v ^ 2 = (1 / l2den v) ^ 2 by rw [div_pow, one_pow],
    Real.sqrt_sq (by positivity), mul_one_div]

/-- C6 (amended): every returned feature row is a raw row divided by the
stabilized denominator `max(‖row‖₂, 1e-12)`; that denominator is at least
`1e-12 > 0`, so the code never divides by exact zero; every row whose raw
L2 norm is at least `1e-12` is normalized to L2 norm exactly `1`; but a row
whose raw norm is `0` (an all-zero row) keeps norm `0`, so the claim's
"every output row has norm ≈ 1" holds only for rows of raw norm ≥ eps (see
the counterexample). -/
theorem claim_C6_row_normalization {Img : Type} (m : ResNetM Img)
    (ep : Episode Img) (f : List (List ℝ)) (l : List ℤ)
    (hok : getFinalFeatures m ep = .ok (f, l)) :
    ∃ f0, getFinalFeaturesRaw m ep = .ok (f0, l) ∧
      f = f0.map normalizeRow ∧
      ∀ v ∈ f0, ((epsQ : ℚ) : ℝ) ≤ l2den v ∧ 0 < l2den v ∧
        (((epsQ : ℚ) : ℝ) ≤ l2norm v → l2normR (normalizeRow v) = 1) ∧
        (l2norm v = 0 → l2normR (normalizeRow v) = 0) := by
  obtain ⟨f0, hraw, hf⟩ := (gff_ok_iff m ep f l).mp hok
  refine ⟨f0, hraw, hf, ?_⟩
  intro v _
  refine ⟨le_max_right _ _, l2den_pos v, ?_, ?_⟩
  · intro hge
    rw [l2normR_normalizeRow]
    rw [show l2den v = l2norm v from max_eq_left hge]
    exact div_self (ne_of_gt (lt_of_lt_of_le epsR_pos hge))
  · intro h0
    rw [l2normR_normalizeRow, h0, zero_div]

/-- C6, witness: the amended statement on a concrete episode in which every
raw row has norm at least `1`. -/
theorem claim_C6_row_normalization_witness :
    ∃ f0, getFinalFeaturesRaw cxM1 cxEp1 = .ok (f0, [0, 2, 3, 4]) ∧
      [[1], [1], [2], [1]].map normalizeRow = f0.map normalizeRow ∧
      ∀ v ∈ f0, ((epsQ : ℚ) : ℝ) ≤ l2den v ∧ 0 < l2den v ∧
        (((epsQ : ℚ) : ℝ) ≤ l2norm v → l2normR (normalizeRow v) = 1) ∧
        (l2norm v = 0 → l2normR (normalizeRow v) = 0) := by
  have hraw : getFinalFeaturesRaw cxM1 cxEp1 =
      .ok ([[1], [1], [2], [1]], [0, 2, 3, 4]) := by
    simp [cxM1, cxEp1, getFinalFeaturesRaw, ResNetM.embedBatch,
      computePrototypes, protosAux, classMean, selectClass, sumVecs,
      vecScale, vstack, dimsConsistent, matT, bandSupport, bandQuery,
      bandCls, bandProto, Classifier.weight, List.range_succ]
  have hok : getFinalFeatures cxM1 cxEp1 =
      .ok ([[1], [1], [2], [1]].map normalizeRow, [0, 2, 3, 4]) := by
    simp [getFinalFeatures, hraw, Except.map]
  exact claim_C6_row_normalization cxM1 cxEp1 _ _ hok

/-- C6, counterexample to the claim as stated: on a model whose backbone
embeds an image to the zero vector, `get_final_features` succeeds, but the
first output row is the zero row, whose L2 norm is `0`, not within
`1e-12` of `1`. -/
theorem claim_C6_counterexample :
    getFinalFeatures cxM6 cxEp1 =
      .ok ([[0], [0], [1], [0]].map normalizeRow, [0, 2, 3, 4]) ∧
    normalizeRow ([0] : Vec) = [0] ∧
    l2normR (normalizeRow ([0] : Vec)) = 0 ∧
    ¬ (|l2normR (normalizeRow ([0] : Vec)) - 1| ≤ ((epsQ : ℚ) : ℝ)) := by
  have hraw : getFinalFeaturesRaw cxM6 cxEp1 =
      .ok ([[0], [0], [1], [0]], [0, 2, 3, 4]) := by
    simp [cxM6, cxEp1, getFinalFeaturesRaw, ResNetM.embedBatch,
      computePrototypes, protosAux, classMean, selectClass, sumVecs,
      vecScale, vstack, dimsConsistent, matT, bandSupport, bandQuery,
      bandCls, bandProto, Classifier.weight, List.range_succ]
  have hnr : normalizeRow ([0] : Vec) = [0] := by
    simp [normalizeRow]
  have hn0 : l2normR (normalizeRow ([0] : Vec)) = 0 := by
    rw [hnr]
    simp [l2normR]
  refine ⟨by simp [getFinalFeatures, hraw, Except.map], hnr, hn0, ?_⟩
  rw [hn0]
  norm_num [epsQ]

theorem vstack_width_mismatch {blocks : List Mat} {r s : Vec}
    (hr : r ∈ blocks.flatten) (hs : s ∈ blocks.flatten)
    (hne : r.length ≠ s.length) :
    vstack blocks = .error .shapeMismatch := by
  cases h : dimsConsistent blocks.flatten with
  | true => exact absurd (dims_all_eq h hr hs) hne
  | false => simp [vstack, h]

set_option maxRecDepth 8192 in
/-- C4: evaluation at the failing input.  With a (well-formed) `nn.Linear`
head on one class, the weight matrix has one row per class already
(`1 × 512`), so the transposed block `cls_fn.weight.T` appended by
`get_final_features` has `512` rows — not `num_classes = 1` rows of
dimension 512 as the claim states — and `torch.vstack` then fails on the
width mismatch, so `get_final_features` raises instead of returning. -/
theorem claim_C4_linear_transpose_bug :
    (Classifier.linear cxW4w [4]).wf 1 ∧
    (matT (Classifier.linear cxW4w [4]).weight).length = 512 ∧
    cxM4.numClasses = 1 ∧
    getFinalFeatures cxM4 cxEp1 = .error .shapeMismatch := by
  refine ⟨?_, ?_, rfl, ?_⟩
  · refine ⟨rfl, ?_⟩
    intro r hr
    rcases List.mem_cons.mp hr with rfl | hr
    · simp
    · exact absurd hr (List.not_mem_nil r)
  · simp [matT, Classifier.weight, cxW4w]
  · have hsel : selectClass (cxM4.embedBatch cxEp1.supportImages)
        cxEp1.supportLabels ((0 : ℕ) : ℤ) = [cxV512] := by
      simp [cxM4, cxEp1, ResNetM.embedBatch, selectClass]
    have hd : ∀ r ∈ cxM4.embedBatch cxEp1.supportImages, r.length = 512 := by
      intro r hr
      simp only [cxM4, cxEp1, ResNetM.embedBatch, List.map_cons,
        List.map_nil] at hr
      rcases List.mem_cons.mp hr with rfl | hr
      · simp [cxV512]
      · exact absurd hr (List.not_mem_nil r)
    have hcov : ∀ c ∈ List.range 1,
        selectClass (cxM4.embedBatch cxEp1.supportImages)
          cxEp1.supportLabels (c : ℤ) ≠ [] := by
      intro c hc
      rw [List.mem_range] at hc
      have hc0 : c = 0 := by omega
      subst hc0
      rw [hsel]
      simp
    obtain ⟨P, hp, _, _⟩ := protosAux_ok_spec hd (List.range 1) hcov
    have hrmem : cxV512 ∈ ([cxM4.embedBatch cxEp1.supportImages,
        cxM4.embedBatch cxEp1.queryImages,
        matT (Classifier.linear cxW4w [4]).weight, P]).flatten :=
      List.mem_flatten.mpr ⟨cxM4.embedBatch cxEp1.supportImages, by simp,
        by simp [cxM4, cxEp1, ResNetM.embedBatch]⟩
    have hsmem : cxW4w.map (fun r => r.getD 0 0) ∈
        ([cxM4.embedBatch cxEp1.supportImages,
          cxM4.embedBatch cxEp1.queryImages,
          matT (Classifier.linear cxW4w [4]).weight, P]).flatten := by
      refine List.mem_flatten.mpr
        ⟨matT (Classifier.linear cxW4w [4]).weight, by simp, ?_⟩
      exact List.mem_map.mpr ⟨0, by simp [Classifier.weight, cxW4w], rfl⟩
    have hv : vstack [cxM4.embedBatch cxEp1.supportImages,
        cxM4.embedBatch cxEp1.queryImages,
        matT (Classifier.linear cxW4w [4]).weight, P]
        = .error .shapeMismatch :=
      vstack_width_mismatch hrmem hsmem (by simp [cxV512, cxW4w])
    have hcls : cxM4.clsFn = some (.linear cxW4w [4]) := rfl
    simp only [getFinalFeatures, getFinalFeaturesRaw, hcls,
      computePrototypes, show cxM4.numClasses = 1 from rfl, hp, hv]
    rfl

theorem headD_replicate {α : Type} (n : ℕ) (a d : α) :
    (List.replicate n a).headD d = if n = 0 then d else a := by
  cases n <;> simp [List.replicate_succ]

theorem length_matT (w : Mat) : (matT w).length = (w.headD []).length := by
  simp [matT]

theorem mem_matT_length {w : Mat} {r : Vec} (h : r ∈ matT w) :
    r.length = w.length := by
  obtain ⟨j, _, rfl⟩ := List.mem_map.mp h
  simp

theorem protosAux_ok_strong {rows : Mat} {labels : List ℤ} :
    ∀ {cs : List ℕ} {ps : Mat}, protosAux rows labels cs = .ok ps →
      ps.length = cs.length ∧
      ∀ c ∈ cs, selectClass rows labels (c : ℤ) ≠ [] := by
  intro cs
  induction cs with
  | nil =>
      intro ps h
      simp only [protosAux, Except.ok.injEq] at h
      subst h
      exact ⟨rfl, by simp⟩
  | cons c cs ih =>
      intro ps h
      simp only [protosAux] at h
      split at h
      · exact absurd h (by simp)
      · rename_i p hm
        split at h
        · exact absurd h (by simp)
        · rename_i ps' ht
          simp only [Except.ok.injEq] at h
          subst h
          obtain ⟨hl, hcs⟩ := ih ht
          refine ⟨by simp [hl], ?_⟩
          intro c' hc'
          rcases List.mem_cons.mp hc' with rfl | hc'
          · intro hnil
            rw [hnil] at hm
            simp [classMean] at hm
          · exact hcs c' hc'

theorem rows_ne_nil_of_selectClass {rows : Mat} {labels : List ℤ} {c : ℤ}
    (h : selectClass rows labels c ≠ []) : rows ≠ [] := by
  intro hr
  subst hr
  exact h (by simp [selectClass])

/-- C2: whenever `get_final_features` returns on an episode with `S`
support and `Q` query images (labels parallel to images), given the
backbone contract (512-wide embeddings) and the constructor's classifier
shape invariants, the feature matrix consists, in order, of the `S`
normalized support rows, the `Q` normalized query rows, `num_classes`
normalized classifier-weight rows, and `num_classes` normalized prototype
rows, for `S + Q + num_classes + num_classes` rows in total, and the label
vector has exactly that length.  (When no classifier is attached the call
raises instead of returning — see C3 — so a successful return always
carries the classifier block.) -/
theorem claim_C2_row_structure {Img : Type} (m : ResNetM Img)
    (ep : Episode Img) (f : List (List ℝ)) (l : List ℤ)
    (hdim : ∀ img, (m.embedOne img).length = 512)
    (hwf : ∀ cls, m.clsFn = some cls → cls.wf m.numClasses)
    (hsl : ep.supportLabels.length = ep.supportImages.length)
    (hql : ep.queryLabels.length = ep.queryImages.length)
    (hok : getFinalFeatures m ep = .ok (f, l)) :
    ∃ cls protos, m.clsFn = some cls ∧
      computePrototypes (m.embedBatch ep.supportImages) ep.supportLabels
        m.numClasses = .ok protos ∧
      f = (m.embedBatch ep.supportImages).map normalizeRow
        ++ (m.embedBatch ep.queryImages).map normalizeRow
        ++ (matT cls.weight).map normalizeRow
        ++ protos.map normalizeRow ∧
      (m.embedBatch ep.supportImages).length = ep.supportImages.length ∧
      (m.embedBatch ep.queryImages).length = ep.queryImages.length ∧
      (matT cls.weight).length = m.numClasses ∧
      protos.length = m.numClasses ∧
      f.length = ep.supportImages.length + ep.queryImages.length
        + m.numClasses + m.numClasses ∧
      l.length = f.length := by
  obtain ⟨f0, hraw, hf⟩ := (gff_ok_iff m ep f l).mp hok
  obtain ⟨cls, protos, hcls, hp, hv, hl⟩ := raw_ok_elim hraw
  obtain ⟨h0, hdims⟩ := vstack_ok_elim hv
  have hflat : ([m.embedBatch ep.supportImages, m.embedBatch ep.queryImages,
      matT cls.weight, protos] : List Mat).flatten
      = m.embedBatch ep.supportImages ++ m.embedBatch ep.queryImages
        ++ matT cls.weight ++ protos := by
    simp
  have hS : ∀ r ∈ m.embedBatch ep.supportImages, r.length = 512 := by
    intro r hr
    obtain ⟨i, _, rfl⟩ := List.mem_map.mp hr
    exact hdim i
  have hSlen : (m.embedBatch ep.supportImages).length
      = ep.supportImages.length := by simp [ResNetM.embedBatch]
  have hQlen : (m.embedBatch ep.queryImages).length
      = ep.queryImages.length := by simp [ResNetM.embedBatch]
  have hp' : protosAux (m.embedBatch ep.supportImages) ep.supportLabels
      (List.range m.numClasses) = .ok protos := hp
  obtain ⟨hPlen0, hPne⟩ := protosAux_ok_strong hp'
  have hPlen : protos.length = m.numClasses := by simpa using hPlen0
  have hWlen : (matT cls.weight).length = m.numClasses := by
    cases cls with
    | cosine w =>
        obtain ⟨hw1, hw2⟩ := hwf _ hcls
        have hwne : w ≠ [] := by intro h; rw [h] at hw1; simp at hw1
        obtain ⟨r, rs, rfl⟩ := List.exists_cons_of_ne_nil hwne
        have hr : r.length = m.numClasses := hw2 r (by simp)
        simp [matT, Classifier.weight, hr]
    | linear w b =>
        obtain ⟨hw1, hw2⟩ := hwf _ hcls
        by_cases hC : m.numClasses = 0
        · have hw0 : w = [] := List.length_eq_zero.mp (by rw [hw1, hC])
          subst hw0
          simp [matT, Classifier.weight, hC]
        · have h0mem : (0 : ℕ) ∈ List.range m.numClasses :=
            List.mem_range.mpr (Nat.pos_of_ne_zero hC)
          have hSne : m.embedBatch ep.supportImages ≠ [] :=
            rows_ne_nil_of_selectClass (hPne 0 h0mem)
          obtain ⟨s0, S', hS0⟩ := List.exists_cons_of_ne_nil hSne
          have hs0len : s0.length = 512 := hS s0 (by rw [hS0]; simp)
          have hwne : w ≠ [] := by
            intro h; rw [h] at hw1; exact hC (by simpa using hw1.symm)
          obtain ⟨w0r, wrs, rfl⟩ := List.exists_cons_of_ne_nil hwne
          have hw0r : w0r.length = 512 := hw2 w0r (by simp)
          have hmatlen :
              (matT (Classifier.linear (w0r :: wrs) b).weight).length
                = 512 := by
            simp [matT, Classifier.weight, hw0r]
          obtain ⟨t0, ht0⟩ :=
            List.exists_mem_of_length_pos (by rw [hmatlen]; omega)
          have ht0len : t0.length = (w0r :: wrs).length := mem_matT_length ht0
          have hs0mem : s0 ∈ ([m.embedBatch ep.supportImages,
              m.embedBatch ep.queryImages,
              matT (Classifier.linear (w0r :: wrs) b).weight,
              protos] : List Mat).flatten := by
            rw [hflat]
            refine List.mem_append.mpr (Or.inl ?_)
            refine List.mem_append.mpr (Or.inl ?_)
            refine List.mem_append.mpr (Or.inl ?_)
            rw [hS0]; simp
          have ht0mem : t0 ∈ ([m.embedBatch ep.supportImages,
              m.embedBatch ep.queryImages,
              matT (Classifier.linear (w0r :: wrs) b).weight,
              protos] : List Mat).flatten := by
            rw [hflat]
            refine List.mem_append.mpr (Or.inl ?_)
            exact List.mem_append.mpr (Or.inr ht0)
          have heq := dims_all_eq hdims hs0mem ht0mem
          rw [hs0len, ht0len] at heq
          rw [hmatlen, ← hw1, ← heq]
  refine ⟨cls, protos, hcls, hp, ?_, hSlen, hQlen, hWlen, hPlen, ?_, ?_⟩
  · rw [hf, h0, hflat]
    simp [List.map_append]
  · rw [hf, h0, hflat]
    simp only [List.length_map, List.length_append, hSlen, hQlen, hWlen,
      hPlen]
  · rw [hl, hf, h0, hflat]
    simp only [bandSupport, bandQuery, bandCls, bandProto,
      List.length_append, List.length_map, List.length_range, hsl, hql,
      hSlen, hQlen, hWlen, hPlen]

set_option maxRecDepth 8192 in
/-- C2, witness: the row structure on a concrete one-class episode with
512-dimensional embeddings and a well-formed cosine head. -/
theorem claim_C2_row_structure_witness :
    ∃ cls protos, cxM2.clsFn = some cls ∧
      computePrototypes (cxM2.embedBatch cxEp1.supportImages)
        cxEp1.supportLabels cxM2.numClasses = .ok protos ∧
      cxF2raw.map normalizeRow
        = (cxM2.embedBatch cxEp1.supportImages).map normalizeRow
          ++ (cxM2.embedBatch cxEp1.queryImages).map normalizeRow
          ++ (matT cls.weight).map normalizeRow
          ++ protos.map normalizeRow ∧
      (cxM2.embedBatch cxEp1.supportImages).length
        = cxEp1.supportImages.length ∧
      (cxM2.embedBatch cxEp1.queryImages).length
        = cxEp1.queryImages.length ∧
      (matT cls.weight).length = cxM2.numClasses ∧
      protos.length = cxM2.numClasses ∧
      (cxF2raw.map normalizeRow).length
        = cxEp1.supportImages.length + cxEp1.queryImages.length
          + cxM2.numClasses + cxM2.numClasses ∧
      ([0, 2, 3, 4] : List ℤ).length = (cxF2raw.map normalizeRow).length := by
  have hdim : ∀ img : ℕ, (cxM2.embedOne img).length = 512 := by
    intro img
    show cxV512.length = 512
    simp only [cxV512, List.length_replicate]
  have hwf : ∀ cls, cxM2.clsFn = some cls → cls.wf cxM2.numClasses := by
    intro cls h
    have hc : Classifier.cosine cxW2w = cls := Option.some.inj h
    rw [← hc]
    constructor
    · simp only [cxW2w, List.length_replicate]
    · intro r hr
      have hr2 : r = [2] := by simpa [cxW2w] using hr
      rw [hr2]
      rfl
  have hraw : getFinalFeaturesRaw cxM2 cxEp1 = .ok (cxF2raw, [0, 2, 3, 4]) := by
    simp [cxM2, cxEp1, cxF2raw, cxV512, cxW2w, getFinalFeaturesRaw,
      ResNetM.embedBatch, computePrototypes, protosAux, classMean,
      selectClass, sumVecs, vecScale, vstack, dimsConsistent, matT,
      headD_replicate, bandSupport, bandQuery, bandCls, bandProto,
      Classifier.weight, List.range_succ, List.map_replicate]
  have hok : getFinalFeatures cxM2 cxEp1
      = .ok (cxF2raw.map normalizeRow, [0, 2, 3, 4]) := by
    simp [getFinalFeatures, hraw, Except.map]
  exact claim_C2_row_structure cxM2 cxEp1 _ _ hdim hwf rfl rfl hok
